import Mathlib

/-!
Verification of the `ocm token` command (src/cmd/ocm/token/cmd.go).

The command's `run` function is embedded together with the library routines
whose behaviour it depends on: Go's `encoding/base64` URL decoders
(`RawURLEncoding.DecodeString` and the padded `URLEncoding`), the
`github.com/dgrijalva/jwt-go` (v3.2.0) `(*Parser).ParseUnverified` method
(which splits on `.`, base64-decodes the first two segments with padding
tolerance, JSON-parses them into maps, and requires a registered `alg`
header), and the relevant fragment of `encoding/json`.

Go strings and byte slices are modelled as `List Nat` of byte values.
External collaborators (config load/save, connection, token retrieval,
pretty-printing) are modelled as an oracle `World`; `run` additionally
returns the list of collaborator calls it performed and the bytes written
to standard output.
-/

namespace OcmToken

/-- Bytes of a Go string or byte slice. -/
abbrev Bytes := List Nat

/-- Byte list of an ASCII string literal (code points equal bytes for ASCII). -/
def ascii (s : String) : Bytes := s.data.map Char.toNat

/-- Go `strings.Split(s, ".")` at byte level: split on byte 46 (`.`).
On the empty string it yields one empty segment, never zero segments. -/
def splitOnDot : Bytes → List Bytes
  | [] => [[]]
  | b :: rest =>
    match splitOnDot rest with
    | [] => [[]]
    | p :: ps => if b = 46 then [] :: p :: ps else (b :: p) :: ps

/-- Index of a byte in the base64url alphabet (`A-Z a-z 0-9 - _`), as in the
decode map of Go's `base64.URLEncoding` / `RawURLEncoding`. -/
def b64Index (b : Nat) : Option Nat :=
  if 65 ≤ b ∧ b ≤ 90 then some (b - 65)
  else if 97 ≤ b ∧ b ≤ 122 then some (b - 97 + 26)
  else if 48 ≤ b ∧ b ≤ 57 then some (b - 48 + 52)
  else if b = 45 then some 62
  else if b = 95 then some 63
  else none

/-- Byte of the base64url alphabet at a given index (used by the reference
encoder of the round-trip law). -/
def b64Byte (i : Nat) : Nat :=
  if i < 26 then i + 65
  else if i < 52 then i - 26 + 97
  else if i < 62 then i - 52 + 48
  else if i = 62 then 45
  else 95

/-- Go's base64 decoders skip CR (13) and LF (10) wherever they occur. -/
def dropNl (s : Bytes) : Bytes := s.filter (fun b => b != 13 && b != 10)

/-- Map every byte to its alphabet index; any byte outside the alphabet makes
the whole decode fail. -/
def bytesToIdx : Bytes → Option (List Nat)
  | [] => some []
  | b :: rest =>
    match b64Index b, bytesToIdx rest with
    | some i, some is => some (i :: is)
    | _, _ => none

/-- Reassemble bytes from 6-bit indices, four at a time, with a final group
of two or three indices allowed (as in unpadded decoding).  A single leftover
index is an error.  As in Go's default (non-strict) mode, non-zero trailing
bits of the last index are discarded rather than rejected. -/
def idxToBytes : List Nat → Option Bytes
  | [] => some []
  | [_] => none
  | [a, b] => some [a * 4 + b / 16]
  | [a, b, c] => some [a * 4 + b / 16, b % 16 * 16 + c / 4]
  | a :: b :: c :: d :: rest =>
    match idxToBytes rest with
    | some bs => some ((a * 4 + b / 16) :: (b % 16 * 16 + c / 4) :: (c % 4 * 64 + d) :: bs)
    | none => none

/-- Decode after newline filtering, with no padding handling. -/
def padFree (s : Bytes) : Option Bytes :=
  match bytesToIdx s with
  | some is => idxToBytes is
  | none => none

/-- Model of Go `base64.RawURLEncoding.DecodeString`: CR/LF bytes are
skipped, `=` and all other non-alphabet bytes are rejected, no padding is
accepted, a final group of two or three characters is allowed. -/
def rawUrlDecode (s : Bytes) : Option Bytes :=
  padFree (dropNl s)

/-- Model of Go `base64.URLEncoding.DecodeString` (padded): after skipping
CR/LF the length must be a multiple of four; up to two trailing `=` complete
the last group; `=` anywhere else is rejected (it is not in the alphabet). -/
def urlDecode (s : Bytes) : Option Bytes :=
  let t := dropNl s
  if t.length % 4 ≠ 0 then none
  else
    match t.reverse with
    | 61 :: 61 :: rb => padFree rb.reverse
    | 61 :: rb => padFree rb.reverse
    | _ => padFree t

/-- Model of jwt-go `DecodeSegment` (v3.2.0): append `=` padding computed
from the unfiltered length, then decode with the padded URL encoding. -/
def decodeSegment (s : Bytes) : Option Bytes :=
  if s.length % 4 > 0 then urlDecode (s ++ List.replicate (4 - s.length % 4) 61)
  else urlDecode s

/-- Reference base64url encoder with no padding (RFC 4648 section 5), the
encoder named by the spec's round-trip law. -/
def rawUrlEncode : Bytes → Bytes
  | [] => []
  | [x] => [b64Byte (x / 4), b64Byte (x % 4 * 16)]
  | [x, y] => [b64Byte (x / 4), b64Byte (x % 4 * 16 + y / 16), b64Byte (y % 16 * 4)]
  | x :: y :: z :: rest =>
    b64Byte (x / 4) :: b64Byte (x % 4 * 16 + y / 16) :: b64Byte (y % 16 * 4 + z / 64)
      :: b64Byte (z % 64) :: rawUrlEncode rest

/-- JSON values as decoded by `encoding/json` into `map[string]interface`
shaped data; numeric payloads are irrelevant here and are not kept. -/
inductive Jval where
  | jnull
  | jbool (b : Bool)
  | jnum
  | jstr (s : Bytes)
  | jarr (elems : List Jval)
  | jobj (members : List (Bytes × Jval))

/-- JSON whitespace bytes (space, tab, LF, CR). -/
def jWs (b : Nat) : Bool := b == 32 || b == 9 || b == 10 || b == 13

def skipWs (s : Bytes) : Bytes := s.dropWhile jWs

def isDigit (b : Nat) : Bool := 48 ≤ b && b ≤ 57

def hexVal (b : Nat) : Option Nat :=
  if 48 ≤ b ∧ b ≤ 57 then some (b - 48)
  else if 97 ≤ b ∧ b ≤ 102 then some (b - 97 + 10)
  else if 65 ≤ b ∧ b ≤ 70 then some (b - 65 + 10)
  else none

/-- UTF-8 encoding of a code point, for `\uXXXX` escapes. -/
def utf8Enc (c : Nat) : Bytes :=
  if c < 128 then [c]
  else if c < 2048 then [192 + c / 64, 128 + c % 64]
  else if c < 65536 then [224 + c / 4096, 128 + c / 64 % 64, 128 + c % 64]
  else [240 + c / 262144, 128 + c / 4096 % 64, 128 + c / 64 % 64, 128 + c % 64]

/-- Single-character JSON string escapes. -/
def jEscByte (e : Nat) : Option Nat :=
  if e = 34 then some 34
  else if e = 92 then some 92
  else if e = 47 then some 47
  else if e = 98 then some 8
  else if e = 102 then some 12
  else if e = 110 then some 10
  else if e = 114 then some 13
  else if e = 116 then some 9
  else none

/-- Body of a JSON string after the opening quote: returns the decoded
content bytes and the remainder after the closing quote.  Mirrors Go's
`unquoteBytes`: control bytes below 32 are rejected, `\uXXXX` escapes are
decoded with surrogate pairing and lone surrogates replaced by U+FFFD. -/
def jStrBodyF : Nat → Bytes → Option (Bytes × Bytes)
  | 0, _ => none
  | fuel + 1, s =>
  match s with
  | [] => none
  | 34 :: rest => some ([], rest)
  | 92 :: 117 :: h1 :: h2 :: h3 :: h4 :: rest =>
    match hexVal h1, hexVal h2, hexVal h3, hexVal h4 with
    | some a, some b, some c, some d =>
      let cp := a * 4096 + b * 256 + c * 16 + d
      if 55296 ≤ cp ∧ cp ≤ 56319 then
        match rest with
        | 92 :: 117 :: k1 :: k2 :: k3 :: k4 :: rest2 =>
          match hexVal k1, hexVal k2, hexVal k3, hexVal k4 with
          | some a2, some b2, some c2, some d2 =>
            let lo := a2 * 4096 + b2 * 256 + c2 * 16 + d2
            if 56320 ≤ lo ∧ lo ≤ 57343 then
              match jStrBodyF fuel rest2 with
              | some (bs, rem) =>
                some (utf8Enc (65536 + (cp - 55296) * 1024 + (lo - 56320)) ++ bs, rem)
              | none => none
            else
              match jStrBodyF fuel rest with
              | some (bs, rem) => some (utf8Enc 65533 ++ bs, rem)
              | none => none
          | _, _, _, _ =>
            match jStrBodyF fuel rest with
            | some (bs, rem) => some (utf8Enc 65533 ++ bs, rem)
            | none => none
        | _ =>
          match jStrBodyF fuel rest with
          | some (bs, rem) => some (utf8Enc 65533 ++ bs, rem)
          | none => none
      else if 56320 ≤ cp ∧ cp ≤ 57343 then
        match jStrBodyF fuel rest with
        | some (bs, rem) => some (utf8Enc 65533 ++ bs, rem)
        | none => none
      else
        match jStrBodyF fuel rest with
        | some (bs, rem) => some (utf8Enc cp ++ bs, rem)
        | none => none
    | _, _, _, _ => none
  | 92 :: e :: rest =>
    match jEscByte e with
    | some b =>
      match jStrBodyF fuel rest with
      | some (bs, rem) => some (b :: bs, rem)
      | none => none
    | none => none
  | b :: rest =>
    if b < 32 then none
    else
      match jStrBodyF fuel rest with
      | some (bs, rem) => some (b :: bs, rem)
      | none => none

/-- Body of a JSON string, with fuel instantiated: one unit per step always
suffices since every step consumes at least one byte. -/
def jStrBody (s : Bytes) : Option (Bytes × Bytes) := jStrBodyF (s.length + 1) s

/-- Exponent digits of a JSON number: at least one digit, then the rest. -/
def jExpDigits (s : Bytes) : Option Bytes :=
  match s with
  | d :: rest => if isDigit d then some (rest.dropWhile isDigit) else none
  | [] => none

def jExpSign (s : Bytes) : Option Bytes :=
  match s with
  | 43 :: rest => jExpDigits rest
  | 45 :: rest => jExpDigits rest
  | _ => jExpDigits s

def jExp (s : Bytes) : Option Bytes :=
  match s with
  | 101 :: rest => jExpSign rest
  | 69 :: rest => jExpSign rest
  | _ => some s

def jFrac (s : Bytes) : Option Bytes :=
  match s with
  | 46 :: rest =>
    match rest with
    | d :: r2 => if isDigit d then jExp (r2.dropWhile isDigit) else none
    | [] => none
  | _ => jExp s

/-- Remainder after a JSON number whose optional minus sign has been
consumed: `0` or a nonzero digit followed by digits, then optional fraction
and exponent. -/
def jNumTail (s : Bytes) : Option Bytes :=
  match s with
  | 48 :: rest => jFrac rest
  | b :: rest => if 49 ≤ b ∧ b ≤ 57 then jFrac (rest.dropWhile isDigit) else none
  | [] => none

mutual

/-- Parse one JSON value (leading whitespace allowed), returning it and the
remaining input.  Fuel bounds the recursion and is chosen generously by the
callers below. -/
def jVal : Nat → Bytes → Option (Jval × Bytes)
  | 0, _ => none
  | fuel + 1, s =>
    match skipWs s with
    | 110 :: 117 :: 108 :: 108 :: rest => some (.jnull, rest)
    | 116 :: 114 :: 117 :: 101 :: rest => some (.jbool true, rest)
    | 102 :: 97 :: 108 :: 115 :: 101 :: rest => some (.jbool false, rest)
    | 34 :: rest =>
      match jStrBodyF fuel rest with
      | some (bs, rem) => some (.jstr bs, rem)
      | none => none
    | 45 :: rest =>
      match jNumTail rest with
      | some rem => some (.jnum, rem)
      | none => none
    | 91 :: rest => jArrTail fuel rest
    | 123 :: rest => jObjTail fuel rest
    | b :: rest =>
      if isDigit b then
        match jNumTail (b :: rest) with
        | some rem => some (.jnum, rem)
        | none => none
      else none
    | [] => none

/-- After an opening `[`. -/
def jArrTail : Nat → Bytes → Option (Jval × Bytes)
  | 0, _ => none
  | fuel + 1, s =>
    match skipWs s with
    | 93 :: rest => some (.jarr [], rest)
    | s2 =>
      match jElems fuel s2 with
      | some (vs, rest) => some (.jarr vs, rest)
      | none => none

/-- One or more comma-separated elements followed by `]`. -/
def jElems : Nat → Bytes → Option (List Jval × Bytes)
  | 0, _ => none
  | fuel + 1, s =>
    match jVal fuel s with
    | some (v, rest) =>
      match skipWs rest with
      | 44 :: r2 =>
        match jElems fuel r2 with
        | some (vs, r3) => some (v :: vs, r3)
        | none => none
      | 93 :: r2 => some ([v], r2)
      | _ => none
    | none => none

/-- After an opening `\x7b`. -/
def jObjTail : Nat → Bytes → Option (Jval × Bytes)
  | 0, _ => none
  | fuel + 1, s =>
    match skipWs s with
    | 125 :: rest => some (.jobj [], rest)
    | s2 =>
      match jMembers fuel s2 with
      | some (ms, rest) => some (.jobj ms, rest)
      | none => none

/-- One or more `key : value` members followed by `\x7d`. -/
def jMembers : Nat → Bytes → Option (List (Bytes × Jval) × Bytes)
  | 0, _ => none
  | fuel + 1, s =>
    match skipWs s with
    | 34 :: rest =>
      match jStrBodyF fuel rest with
      | some (key, r2) =>
        match skipWs r2 with
        | 58 :: r3 =>
          match jVal fuel r3 with
          | some (v, r4) =>
            match skipWs r4 with
            | 44 :: r5 =>
              match jMembers fuel r5 with
              | some (ms, r6) => some ((key, v) :: ms, r6)
              | none => none
            | 125 :: r5 => some ([(key, v)], r5)
            | _ => none
          | none => none
        | _ => none
      | none => none
    | _ => none

end

/-- Generous fuel: every parser step consumes input or descends past a
bracket, so a small multiple of the length suffices. -/
def jFuel (s : Bytes) : Nat := 8 * s.length + 8

/-- Model of Go `json.Unmarshal` into a `map[string]interface` value: the
whole input must be one JSON value (trailing whitespace allowed), and the
value must be an object — or `null`, which leaves the map empty. -/
def unmarshalMap (s : Bytes) : Option (List (Bytes × Jval)) :=
  match jVal (jFuel s) s with
  | some (v, rest) =>
    if skipWs rest = [] then
      match v with
      | .jobj ms => some ms
      | .jnull => some []
      | _ => none
    else none
  | none => none

/-- Model of Go `json.Decoder.Decode` into a map (used by jwt-go for the
claims): reads one value from the stream, ignores trailing bytes, and the
value must be an object or `null`. -/
def decodeStreamMap (s : Bytes) : Option (List (Bytes × Jval)) :=
  match jVal (jFuel s) s with
  | some (v, _) =>
    match v with
    | .jobj ms => some ms
    | .jnull => some []
    | _ => none
  | none => none

/-- Last-wins lookup, as decoding duplicate JSON keys into a Go map keeps
the final occurrence. -/
def mapLookup (ms : List (Bytes × Jval)) (k : Bytes) : Option Jval :=
  ms.foldl (fun acc m => if m.1 = k then some m.2 else acc) none

/-- The bytes of the header key "alg". -/
def algKey : Bytes := [97, 108, 103]

/-- Signing method names registered by the package init functions of jwt-go
v3.2.0 (none, HMAC, RSA, ECDSA and RSA-PSS families). -/
def signingMethodNames : List Bytes :=
  [ascii "none",
   ascii "HS256", ascii "HS384", ascii "HS512",
   ascii "RS256", ascii "RS384", ascii "RS512",
   ascii "ES256", ascii "ES384", ascii "ES512",
   ascii "PS256", ascii "PS384", ascii "PS512"]

/-- Model of jwt-go `GetSigningMethod`: whether a method of this name is
registered. -/
def getSigningMethodOk (m : Bytes) : Bool := signingMethodNames.contains m

/-- Success of jwt-go `(*Parser).ParseUnverified` (v3.2.0) with a default
parser: the token must split into exactly three `.`-separated parts; the
header part must decode via `DecodeSegment` and unmarshal as a JSON map; the
claims part must decode via `DecodeSegment` and stream-decode as a JSON map;
and the header must carry a string `alg` naming a registered signing method.
The `bearer` prefix special case only changes the error message. -/
def parseOk (s : Bytes) : Bool :=
  match splitOnDot s with
  | [p0, p1, _] =>
    match decodeSegment p0 with
    | none => false
    | some hb =>
      match unmarshalMap hb with
      | none => false
      | some hdr =>
        match decodeSegment p1 with
        | none => false
        | some cb =>
          match decodeStreamMap cb with
          | none => false
          | some _ =>
            match mapLookup hdr algKey with
            | some (.jstr m) => getSigningMethodOk m
            | _ => false
  | _ => false

/-- Model of jwt-go `(*Parser).ParseUnverified`: the split parts (returned
even on error) together with the success flag. -/
def parseUnverified (s : Bytes) : List Bytes × Bool :=
  (splitOnDot s, parseOk s)

/-- The CLI flags of the command. -/
structure Flags where
  header : Bool
  payload : Bool
  signature : Bool
  refresh : Bool
deriving DecidableEq

/-- Errors of `run`, one per `fmt.Errorf` site in cmd.go. -/
inductive RunErr where
  | configErr
  | loadErr
  | notLoggedIn
  | armedErr
  | tokensExpired
  | connErr
  | tokensErr
  | parseErr
  | decodeHeaderErr
  | decodePayloadErr
  | decodeSignatureErr
  | dumpHeaderErr
  | dumpPayloadErr
  | dumpSignatureErr
  | saveErr
deriving DecidableEq

/-- The persisted configuration: the two token fields the command writes,
plus an opaque remainder it leaves untouched. -/
structure Cfg where
  accessToken : Bytes
  refreshToken : Bytes
  rest : List Bytes
deriving DecidableEq

/-- Collaborator calls performed by `run`, in order. -/
inductive Eff where
  | loadCfg
  | armedCheck
  | connect
  | getTokens
  | save (c : Cfg)
deriving DecidableEq

/-- Oracle fixing the responses of the external collaborators for one
invocation. -/
structure World where
  loadResult : Except Unit (Option Cfg)
  armedResult : Cfg → Except Unit Bool
  connResult : Cfg → Except Unit Unit
  tokensResult : Except Unit (Bytes × Bytes)
  prettyResult : Bytes → Except Unit Bytes
  saveResult : Cfg → Except Unit Unit

/-- Result, collaborator-call trace and standard output of one invocation. -/
structure RunOut where
  result : Except RunErr Unit
  effects : List Eff
  stdout : Bytes

/-- Token selection from cmd.go: the access token unless `--refresh`. -/
def select (refresh : Bool) (accessToken refreshToken : Bytes) : Bytes :=
  if refresh then refreshToken else accessToken

/-- Number of the three display flags that are set. -/
def modeCount (fl : Flags) : Nat :=
  (if fl.header then 1 else 0) + (if fl.payload then 1 else 0)
    + (if fl.signature then 1 else 0)

/-- Token decoding as cmd.go performs it: the unverified jwt parse, then
`RawURLEncoding` decoding of each of the three parts, with errors of the
latter naming the segment. -/
def decode (s : Bytes) : Except RunErr (Bytes × Bytes × Bytes) :=
  match parseUnverified s with
  | (_, false) => .error .parseErr
  | (parts, true) =>
    match rawUrlDecode (parts.getD 0 []) with
    | none => .error .decodeHeaderErr
    | some hb =>
      match rawUrlDecode (parts.getD 1 []) with
      | none => .error .decodePayloadErr
      | some pb =>
        match rawUrlDecode (parts.getD 2 []) with
        | none => .error .decodeSignatureErr
        | some sb => .ok (hb, pb, sb)

/-- The print dispatch of cmd.go: one pretty dump of the chosen decoded
part, or, with no display flag set, the raw selected token plus newline. -/
def renderStep (fl : Flags) (pretty : Bytes → Except Unit Bytes)
    (selectedToken hb pb sb : Bytes) : Except RunErr Bytes :=
  if fl.header then
    match pretty hb with
    | .error _ => .error .dumpHeaderErr
    | .ok out => .ok out
  else if fl.payload then
    match pretty pb with
    | .error _ => .error .dumpPayloadErr
    | .ok out => .ok out
  else if fl.signature then
    match pretty sb with
    | .error _ => .error .dumpSignatureErr
    | .ok out => .ok out
  else .ok (selectedToken ++ [10])

/-- The tail of `run` once the token pair has been resolved: select, parse
and decode, print, then write both tokens back and save. -/
def runResolved (fl : Flags) (w : World) (cfg : Cfg)
    (accessToken refreshToken : Bytes) : RunOut :=
  match decode (select fl.refresh accessToken refreshToken) with
  | .error e => ⟨.error e, [.loadCfg, .armedCheck, .connect, .getTokens], []⟩
  | .ok (hb, pb, sb) =>
    match renderStep fl w.prettyResult (select fl.refresh accessToken refreshToken) hb pb sb with
    | .error e => ⟨.error e, [.loadCfg, .armedCheck, .connect, .getTokens], []⟩
    | .ok out =>
      match w.saveResult { cfg with accessToken := accessToken, refreshToken := refreshToken } with
      | .error _ => ⟨.error .saveErr,
          [.loadCfg, .armedCheck, .connect, .getTokens,
           .save { cfg with accessToken := accessToken, refreshToken := refreshToken }], out⟩
      | .ok _ => ⟨.ok (),
          [.loadCfg, .armedCheck, .connect, .getTokens,
           .save { cfg with accessToken := accessToken, refreshToken := refreshToken }], out⟩

/-- The `run` function of cmd.go: flag validation, then the collaborator
pipeline, then `runResolved`. -/
def run (fl : Flags) (w : World) : RunOut :=
  if modeCount fl > 1 then ⟨.error .configErr, [], []⟩
  else
    match w.loadResult with
    | .error _ => ⟨.error .loadErr, [.loadCfg], []⟩
    | .ok none => ⟨.error .notLoggedIn, [.loadCfg], []⟩
    | .ok (some cfg) =>
      match w.armedResult cfg with
      | .error _ => ⟨.error .armedErr, [.loadCfg, .armedCheck], []⟩
      | .ok false => ⟨.error .tokensExpired, [.loadCfg, .armedCheck], []⟩
      | .ok true =>
        match w.connResult cfg with
        | .error _ => ⟨.error .connErr, [.loadCfg, .armedCheck, .connect], []⟩
        | .ok _ =>
          match w.tokensResult with
          | .error _ => ⟨.error .tokensErr, [.loadCfg, .armedCheck, .connect, .getTokens], []⟩
          | .ok (accessToken, refreshToken) => runResolved fl w cfg accessToken refreshToken

/-- The token the resolver returned for display, when retrieval succeeded:
what two runs must agree on for the noninterference property. -/
def selectedOf (fl : Flags) (w : World) : Except Unit Bytes :=
  match w.tokensResult with
  | .error e => .error e
  | .ok (a, r) => .ok (select fl.refresh a r)

/-- Reference encoding of three byte buffers joined with the dot separator,
as in the spec's round-trip law. -/
def encodeJoin (b1 b2 b3 : Bytes) : Bytes :=
  rawUrlEncode b1 ++ 46 :: (rawUrlEncode b2 ++ 46 :: rawUrlEncode b3)

/-- A byte both URL base64 decoders reject outright: outside the base64url
alphabet (this includes `=`, byte 61) and not CR/LF (which Go skips). -/
def badByte (b : Nat) : Bool := (b64Index b).isNone && b != 13 && b != 10

/-- Whether a segment contains a byte the decoders reject. -/
def segHasBad (p : Bytes) : Bool := p.any badByte

/-- Header segment of the sample token: base64url of the bytes of a JSON
object mapping alg to none. -/
def tokHeaderSeg : Bytes := ascii "eyJhbGciOiJub25lIn0"

/-- Payload segment of the sample token: base64url of the bytes of a JSON
object mapping sub to x. -/
def tokPayloadSeg : Bytes := ascii "eyJzdWIiOiJ4In0"

/-- Signature segment of the sample token: base64url of the bytes sig. -/
def tokSigSeg : Bytes := ascii "c2ln"

/-- A well-formed sample token. -/
def sampleTok : Bytes := ascii "eyJhbGciOiJub25lIn0.eyJzdWIiOiJ4In0.c2ln"

/-- Decoded bytes of the sample header segment. -/
def hdrBytes : Bytes := [123, 34, 97, 108, 103, 34, 58, 34, 110, 111, 110, 101, 34, 125]

/-- Decoded bytes of the sample payload segment. -/
def pldBytes : Bytes := [123, 34, 115, 117, 98, 34, 58, 34, 120, 34, 125]

/-- Decoded bytes of the sample signature segment. -/
def sigBytes : Bytes := [115, 105, 103]

/-- The sample token with an empty signature segment. -/
def emptySigTok : Bytes := ascii "eyJhbGciOiJub25lIn0.eyJzdWIiOiJ4In0."

/-- The sample token with four LF bytes inside the signature segment. -/
def nlTok : Bytes := sampleTok ++ [10, 10, 10, 10]

/-- The sample token with an explicit padding byte ending the header
segment. -/
def padTok : Bytes := ascii "eyJhbGciOiJub25lIn0=.eyJzdWIiOiJ4In0.c2ln"

/-- A configuration with empty fields, for concrete runs. -/
def cfg0 : Cfg := ⟨[], [], []⟩

/-- A world whose collaborators all succeed but whose tokens are not
three-segment strings. -/
def w0 : World where
  loadResult := .ok (some cfg0)
  armedResult := fun _ => .ok true
  connResult := fun _ => .ok ()
  tokensResult := .ok (ascii "x", ascii "y")
  prettyResult := fun b => .ok b
  saveResult := fun _ => .ok ()

/-- A world resolving the well-formed sample token as access token. -/
def wGood : World := { w0 with tokensResult := .ok (sampleTok, ascii "y") }

/-- Same as `wGood` except for the refresh token, which is not selected when
the refresh flag is unset. -/
def wAlt : World := { w0 with tokensResult := .ok (sampleTok, ascii "z") }

/-! ### Base64 lemmas -/

theorem b64Byte_inv_fin : ∀ i : Fin 64,
    b64Index (b64Byte i.val) = some i.val ∧ b64Byte i.val ≠ 13 ∧
    b64Byte i.val ≠ 10 ∧ b64Byte i.val ≠ 46 := by decide

theorem b64Byte_inv {i : Nat} (h : i < 64) :
    b64Index (b64Byte i) = some i ∧ b64Byte i ≠ 13 ∧ b64Byte i ≠ 10 ∧ b64Byte i ≠ 46 :=
  b64Byte_inv_fin ⟨i, h⟩

theorem dropNl_nil : dropNl [] = [] := rfl

theorem dropNl_cons_keep {c : Nat} (h13 : c ≠ 13) (h10 : c ≠ 10) (l : Bytes) :
    dropNl (c :: l) = c :: dropNl l := by
  have hp : (c != 13 && c != 10) = true := by simp [h13, h10]
  simp [dropNl, List.filter_cons, hp]

theorem bytesToIdx_cons {c i : Nat} (h : b64Index c = some i) (l : Bytes) :
    bytesToIdx (c :: l) = (bytesToIdx l).map (fun is => i :: is) := by
  cases hl : bytesToIdx l <;> simp [bytesToIdx, h, hl]

theorem rawUrl_roundtrip : ∀ b : Bytes, (∀ x ∈ b, x < 256) →
    rawUrlDecode (rawUrlEncode b) = some b := by
  intro b
  induction b using rawUrlEncode.induct with
  | case1 => intro _; rfl
  | case2 x =>
    intro hb
    have hx : x < 256 := hb x (by simp)
    obtain ⟨e0, m0, n0, _⟩ := b64Byte_inv (show x / 4 < 64 by omega)
    obtain ⟨e1, m1, n1, _⟩ := b64Byte_inv (show x % 4 * 16 < 64 by omega)
    have hdn : dropNl [b64Byte (x / 4), b64Byte (x % 4 * 16)] =
        [b64Byte (x / 4), b64Byte (x % 4 * 16)] := by
      rw [dropNl_cons_keep m0 n0, dropNl_cons_keep m1 n1, dropNl_nil]
    have hbi : bytesToIdx [b64Byte (x / 4), b64Byte (x % 4 * 16)] =
        some [x / 4, x % 4 * 16] := by
      rw [bytesToIdx_cons e0, bytesToIdx_cons e1]; rfl
    simp only [rawUrlEncode, rawUrlDecode, padFree, hdn, hbi, idxToBytes]
    have h1 : x / 4 * 4 + x % 4 * 16 / 16 = x := by omega
    rw [h1]
  | case3 x y =>
    intro hb
    have hx : x < 256 := hb x (by simp)
    have hy : y < 256 := hb y (by simp)
    obtain ⟨e0, m0, n0, _⟩ := b64Byte_inv (show x / 4 < 64 by omega)
    obtain ⟨e1, m1, n1, _⟩ := b64Byte_inv (show x % 4 * 16 + y / 16 < 64 by omega)
    obtain ⟨e2, m2, n2, _⟩ := b64Byte_inv (show y % 16 * 4 < 64 by omega)
    have hdn : dropNl [b64Byte (x / 4), b64Byte (x % 4 * 16 + y / 16), b64Byte (y % 16 * 4)] =
        [b64Byte (x / 4), b64Byte (x % 4 * 16 + y / 16), b64Byte (y % 16 * 4)] := by
      rw [dropNl_cons_keep m0 n0, dropNl_cons_keep m1 n1, dropNl_cons_keep m2 n2, dropNl_nil]
    have hbi : bytesToIdx [b64Byte (x / 4), b64Byte (x % 4 * 16 + y / 16), b64Byte (y % 16 * 4)] =
        some [x / 4, x % 4 * 16 + y / 16, y % 16 * 4] := by
      rw [bytesToIdx_cons e0, bytesToIdx_cons e1, bytesToIdx_cons e2]; rfl
    simp only [rawUrlEncode, rawUrlDecode, padFree, hdn, hbi, idxToBytes]
    have h1 : x / 4 * 4 + (x % 4 * 16 + y / 16) / 16 = x := by omega
    have h2 : (x % 4 * 16 + y / 16) % 16 * 16 + y % 16 * 4 / 4 = y := by omega
    rw [h1, h2]
  | case4 x y z rest ih =>
    intro hb
    have hx : x < 256 := hb x (by simp)
    have hy : y < 256 := hb y (by simp)
    have hz : z < 256 := hb z (by simp)
    have hrest : ∀ v ∈ rest, v < 256 := fun v hv => hb v (by simp [hv])
    have IH := ih hrest
    obtain ⟨e0, m0, n0, _⟩ := b64Byte_inv (show x / 4 < 64 by omega)
    obtain ⟨e1, m1, n1, _⟩ := b64Byte_inv (show x % 4 * 16 + y / 16 < 64 by omega)
    obtain ⟨e2, m2, n2, _⟩ := b64Byte_inv (show y % 16 * 4 + z / 64 < 64 by omega)
    obtain ⟨e3, m3, n3, _⟩ := b64Byte_inv (show z % 64 < 64 by omega)
    rcases hbi : bytesToIdx (dropNl (rawUrlEncode rest)) with _ | is
    · simp [rawUrlDecode, padFree, hbi] at IH
    · have hit : idxToBytes is = some rest := by
        simpa [rawUrlDecode, padFree, hbi] using IH
      simp only [rawUrlEncode, rawUrlDecode,
        dropNl_cons_keep m0 n0, dropNl_cons_keep m1 n1,
        dropNl_cons_keep m2 n2, dropNl_cons_keep m3 n3,
        bytesToIdx_cons e0, bytesToIdx_cons e1, bytesToIdx_cons e2, bytesToIdx_cons e3,
        padFree, hbi, Option.map_some', idxToBytes, hit]
      have h1 : x / 4 * 4 + (x % 4 * 16 + y / 16) / 16 = x := by omega
      have h2 : (x % 4 * 16 + y / 16) % 16 * 16 + (y % 16 * 4 + z / 64) / 4 = y := by omega
      have h3 : (y % 16 * 4 + z / 64) % 4 * 64 + z % 64 = z := by omega
      rw [h1, h2, h3]

theorem enc_no_dot : ∀ b : Bytes, (∀ x ∈ b, x < 256) → 46 ∉ rawUrlEncode b := by
  intro b
  induction b using rawUrlEncode.induct with
  | case1 => intro _; simp [rawUrlEncode]
  | case2 x =>
    intro hb
    have hx : x < 256 := hb x (by simp)
    obtain ⟨_, _, _, d0⟩ := b64Byte_inv (show x / 4 < 64 by omega)
    obtain ⟨_, _, _, d1⟩ := b64Byte_inv (show x % 4 * 16 < 64 by omega)
    intro hmem
    simp only [rawUrlEncode, List.mem_cons, List.not_mem_nil, or_false] at hmem
    rcases hmem with h | h
    · exact d0 h.symm
    · exact d1 h.symm
  | case3 x y =>
    intro hb
    have hx : x < 256 := hb x (by simp)
    have hy : y < 256 := hb y (by simp)
    obtain ⟨_, _, _, d0⟩ := b64Byte_inv (show x / 4 < 64 by omega)
    obtain ⟨_, _, _, d1⟩ := b64Byte_inv (show x % 4 * 16 + y / 16 < 64 by omega)
    obtain ⟨_, _, _, d2⟩ := b64Byte_inv (show y % 16 * 4 < 64 by omega)
    intro hmem
    simp only [rawUrlEncode, List.mem_cons, List.not_mem_nil, or_false] at hmem
    rcases hmem with h | h | h
    · exact d0 h.symm
    · exact d1 h.symm
    · exact d2 h.symm
  | case4 x y z rest ih =>
    intro hb
    have hx : x < 256 := hb x (by simp)
    have hy : y < 256 := hb y (by simp)
    have hz : z < 256 := hb z (by simp)
    have hrest : ∀ v ∈ rest, v < 256 := fun v hv => hb v (by simp [hv])
    obtain ⟨_, _, _, d0⟩ := b64Byte_inv (show x / 4 < 64 by omega)
    obtain ⟨_, _, _, d1⟩ := b64Byte_inv (show x % 4 * 16 + y / 16 < 64 by omega)
    obtain ⟨_, _, _, d2⟩ := b64Byte_inv (show y % 16 * 4 + z / 64 < 64 by omega)
    obtain ⟨_, _, _, d3⟩ := b64Byte_inv (show z % 64 < 64 by omega)
    intro hmem
    simp only [rawUrlEncode, List.mem_cons] at hmem
    rcases hmem with h | h | h | h | h
    · exact d0 h.symm
    · exact d1 h.symm
    · exact d2 h.symm
    · exact d3 h.symm
    · exact ih hrest h

/-! ### Splitting lemmas -/

theorem splitOnDot_ne_nil (s : Bytes) : splitOnDot s ≠ [] := by
  cases s with
  | nil => simp [splitOnDot]
  | cons b rest =>
    simp only [splitOnDot]
    split
    · simp
    · split <;> simp

theorem splitOnDot_no_dot {a : Bytes} (ha : 46 ∉ a) : splitOnDot a = [a] := by
  induction a with
  | nil => rfl
  | cons b rest ih =>
    simp only [List.mem_cons, not_or] at ha
    have hb : ¬b = 46 := fun h => ha.1 h.symm
    rw [splitOnDot, ih ha.2]
    simp [hb]

theorem splitOnDot_append {a : Bytes} (r : Bytes) (ha : 46 ∉ a) :
    splitOnDot (a ++ 46 :: r) = a :: splitOnDot r := by
  induction a with
  | nil =>
    rcases h : splitOnDot r with _ | ⟨p, ps⟩
    · exact absurd h (splitOnDot_ne_nil r)
    · simp [splitOnDot, h]
  | cons b a2 ih =>
    simp only [List.mem_cons, not_or] at ha
    have hb : ¬b = 46 := fun h => ha.1 h.symm
    rw [List.cons_append, splitOnDot, ih ha.2]
    simp [hb]

theorem split_encodeJoin {b1 b2 b3 : Bytes} (h1 : ∀ x ∈ b1, x < 256)
    (h2 : ∀ x ∈ b2, x < 256) (h3 : ∀ x ∈ b3, x < 256) :
    splitOnDot (encodeJoin b1 b2 b3) =
      [rawUrlEncode b1, rawUrlEncode b2, rawUrlEncode b3] := by
  rw [encodeJoin, splitOnDot_append _ (enc_no_dot b1 h1),
    splitOnDot_append _ (enc_no_dot b2 h2), splitOnDot_no_dot (enc_no_dot b3 h3)]

/-! ### Decode characterization -/

theorem decode_parse_fail {s : Bytes} (h : parseOk s = false) :
    decode s = .error .parseErr := by
  simp only [decode, parseUnverified, h]

theorem decode_eq_of_split {s p0 p1 p2 : Bytes} (hs : splitOnDot s = [p0, p1, p2])
    (hok : parseOk s = true) :
    decode s =
      (match rawUrlDecode p0 with
       | none => .error .decodeHeaderErr
       | some hb =>
         match rawUrlDecode p1 with
         | none => .error .decodePayloadErr
         | some pb =>
           match rawUrlDecode p2 with
           | none => .error .decodeSignatureErr
           | some sb => .ok (hb, pb, sb)) := by
  simp only [decode, parseUnverified, hs, hok, List.getD]
  rfl

theorem decode_ok_parts {s p0 p1 p2 hb pb sb : Bytes} (hs : splitOnDot s = [p0, p1, p2])
    (hd : decode s = .ok (hb, pb, sb)) :
    rawUrlDecode p0 = some hb ∧ rawUrlDecode p1 = some pb ∧ rawUrlDecode p2 = some sb := by
  cases hok : parseOk s with
  | false => rw [decode_parse_fail hok] at hd; exact absurd hd (by simp)
  | true =>
    rw [decode_eq_of_split hs hok] at hd
    rcases h0 : rawUrlDecode p0 with _ | hbv <;> rw [h0] at hd
    · exact absurd hd (by simp)
    · rcases h1 : rawUrlDecode p1 with _ | pbv <;> rw [h1] at hd
      · exact absurd hd (by simp)
      · rcases h2 : rawUrlDecode p2 with _ | sbv <;> rw [h2] at hd
        · exact absurd hd (by simp)
        · simp only [Except.ok.injEq, Prod.mk.injEq] at hd
          obtain ⟨hh, hp, hsg⟩ := hd
          subst hh hp hsg
          exact ⟨rfl, rfl, rfl⟩

/-! ### Rejected bytes -/

theorem bytesToIdx_dropNl_bad : ∀ {p : Bytes}, segHasBad p = true →
    bytesToIdx (dropNl p) = none := by
  intro p
  induction p with
  | nil => intro h; simp [segHasBad] at h
  | cons b rest ih =>
    intro h
    simp only [segHasBad, List.any_cons, Bool.or_eq_true] at h
    rcases h with hb | hrest
    · simp only [badByte, Bool.and_eq_true] at hb
      obtain ⟨⟨hn, h13⟩, h10⟩ := hb
      have hnone : b64Index b = none := Option.isNone_iff_eq_none.mp hn
      have h13n : b ≠ 13 := by simpa using h13
      have h10n : b ≠ 10 := by simpa using h10
      rw [dropNl_cons_keep h13n h10n]
      simp [bytesToIdx, hnone]
    · have ihr : bytesToIdx (dropNl rest) = none := ih (by simpa [segHasBad] using hrest)
      by_cases h13 : b = 13
      · subst h13
        have : dropNl (13 :: rest) = dropNl rest := by simp [dropNl, List.filter_cons]
        rw [this, ihr]
      · by_cases h10 : b = 10
        · subst h10
          have : dropNl (10 :: rest) = dropNl rest := by simp [dropNl, List.filter_cons]
          rw [this, ihr]
        · rw [dropNl_cons_keep h13 h10]
          cases hbi : b64Index b <;> simp [bytesToIdx, hbi, ihr]

theorem rawUrlDecode_bad {p : Bytes} (h : segHasBad p = true) : rawUrlDecode p = none := by
  simp [rawUrlDecode, padFree, bytesToIdx_dropNl_bad h]

/-! ### Shapes of the run results -/

theorem decode_err_shape {s : Bytes} {e : RunErr} (h : decode s = .error e) :
    e = .parseErr ∨ e = .decodeHeaderErr ∨ e = .decodePayloadErr ∨ e = .decodeSignatureErr := by
  unfold decode at h
  repeat' split at h
  all_goals simp_all

theorem renderStep_err_shape {fl : Flags} {pretty : Bytes → Except Unit Bytes}
    {t hb pb sb : Bytes} {e : RunErr}
    (h : renderStep fl pretty t hb pb sb = .error e) :
    e = .dumpHeaderErr ∨ e = .dumpPayloadErr ∨ e = .dumpSignatureErr := by
  unfold renderStep at h
  repeat' split at h
  all_goals simp_all

theorem runResolved_result_ne_config (fl : Flags) (w : World) (cfg : Cfg) (a r : Bytes) :
    (runResolved fl w cfg a r).result ≠ .error .configErr := by
  unfold runResolved
  rcases hdec : decode (select fl.refresh a r) with e | ⟨hb, pb, sb⟩
  · simp only [hdec]
    intro hcon
    have he : e = .configErr := by simpa using hcon
    subst he
    rcases decode_err_shape hdec with h | h | h | h <;> exact RunErr.noConfusion h
  · simp only [hdec]
    rcases hr : renderStep fl w.prettyResult (select fl.refresh a r) hb pb sb with e | out
    · simp only [hr]
      intro hcon
      have he : e = .configErr := by simpa using hcon
      subst he
      rcases renderStep_err_shape hr with h | h | h <;> exact RunErr.noConfusion h
    · simp only [hr]
      rcases hsv : w.saveResult { cfg with accessToken := a, refreshToken := r } with u | u <;>
        simp [hsv]

theorem runResolved_stdout (fl : Flags) (w : World) (cfg : Cfg) (a r : Bytes) :
    (runResolved fl w cfg a r).stdout =
      (match decode (select fl.refresh a r) with
       | .error _ => []
       | .ok (hb, pb, sb) =>
         match renderStep fl w.prettyResult (select fl.refresh a r) hb pb sb with
         | .error _ => []
         | .ok out => out) := by
  unfold runResolved
  rcases hdec : decode (select fl.refresh a r) with e | ⟨hb, pb, sb⟩
  · simp only [hdec]
  · simp only [hdec]
    rcases hr : renderStep fl w.prettyResult (select fl.refresh a r) hb pb sb with e | out
    · simp only [hr]
    · simp only [hr]
      rcases hsv : w.saveResult { cfg with accessToken := a, refreshToken := r } with u | u <;>
        simp [hsv]

theorem run_eq_runResolved {fl : Flags} {w : World} {cfg : Cfg} {a r : Bytes}
    (hm : ¬modeCount fl > 1)
    (hl : w.loadResult = .ok (some cfg)) (ha : w.armedResult cfg = .ok true)
    (hc : w.connResult cfg = .ok ()) (ht : w.tokensResult = .ok (a, r)) :
    run fl w = runResolved fl w cfg a r := by
  unfold run
  rw [if_neg hm]
  simp only [hl, ha, hc, ht]

theorem parseOk_three {s : Bytes} (h : parseOk s = true) : (splitOnDot s).length = 3 := by
  unfold parseOk at h
  rcases hsp : splitOnDot s with _ | ⟨p0, tl⟩
  · rw [hsp] at h; simp at h
  · rcases tl with _ | ⟨p1, tl2⟩
    · rw [hsp] at h; simp at h
    · rcases tl2 with _ | ⟨p2, tl3⟩
      · rw [hsp] at h; simp at h
      · rcases tl3 with _ | ⟨p3, tl4⟩
        · rfl
        · rw [hsp] at h; simp at h

/-! ### Claims -/

/-- C1: Counterexample to the claim that decode succeeds on every token of
three non-empty valid base64url segments without JSON parsing: YQ.YQ.YQ has
three such segments, each decoding to the byte 97, yet decode fails, since
the unverified jwt parse JSON-parses the decoded header bytes. -/
theorem c1_counterexample :
    splitOnDot (ascii "YQ.YQ.YQ") = [ascii "YQ", ascii "YQ", ascii "YQ"] ∧
    (∀ p ∈ splitOnDot (ascii "YQ.YQ.YQ"), p ≠ [] ∧ (rawUrlDecode p).isSome = true) ∧
    decode (ascii "YQ.YQ.YQ") = .error .parseErr :=
  ⟨by decide, by decide, by rfl⟩

/-- C1 (amended): for a token splitting into three non-empty segments that
are valid raw base64url, decode succeeds exactly when the unverified jwt
parse succeeds — which requires the header and payload bytes to be JSON
maps and a registered alg, so decode does depend on the JSON parse — and on
success it returns the three decoded buffers. -/
theorem c1_decode_requires_json (s p0 p1 p2 hb pb sb : Bytes)
    (hs : splitOnDot s = [p0, p1, p2])
    (hne : p0 ≠ [] ∧ p1 ≠ [] ∧ p2 ≠ [])
    (h0 : rawUrlDecode p0 = some hb) (h1 : rawUrlDecode p1 = some pb)
    (h2 : rawUrlDecode p2 = some sb) :
    decode s = if parseOk s then .ok (hb, pb, sb) else .error .parseErr := by
  cases hok : parseOk s
  · simpa using decode_parse_fail hok
  · rw [decode_eq_of_split hs hok, h0, h1, h2]
    simp

/-- C1 witness: the amended statement instantiated at the sample token. -/
theorem c1_witness :
    splitOnDot sampleTok = [tokHeaderSeg, tokPayloadSeg, tokSigSeg] ∧
    rawUrlDecode tokHeaderSeg = some hdrBytes ∧
    decode sampleTok =
      if parseOk sampleTok then .ok (hdrBytes, pldBytes, sigBytes) else .error .parseErr :=
  ⟨by decide, by decide,
    c1_decode_requires_json sampleTok tokHeaderSeg tokPayloadSeg tokSigSeg hdrBytes pldBytes
      sigBytes (by decide) (by decide) (by decide) (by decide) (by decide)⟩

/-- C2: Counterexample to the round-trip law: encoding the three one-byte
buffers 97 with the reference encoder and joining with dots yields
YQ.YQ.YQ, on which decode fails instead of returning the buffers. -/
theorem c2_counterexample :
    encodeJoin [97] [97] [97] = ascii "YQ.YQ.YQ" ∧
    decode (encodeJoin [97] [97] [97]) = .error .parseErr :=
  ⟨by decide, by rfl⟩

/-- C2 (amended): the round-trip law holds exactly on the tokens the
unverified jwt parse accepts: for all byte buffers whose joined reference
encoding passes that parse, decode returns the original three buffers. -/
theorem c2_roundtrip_on_parsed (b1 b2 b3 : Bytes)
    (h1 : ∀ x ∈ b1, x < 256) (h2 : ∀ x ∈ b2, x < 256) (h3 : ∀ x ∈ b3, x < 256)
    (hp : parseOk (encodeJoin b1 b2 b3) = true) :
    decode (encodeJoin b1 b2 b3) = .ok (b1, b2, b3) := by
  rw [decode_eq_of_split (split_encodeJoin h1 h2 h3) hp,
    rawUrl_roundtrip b1 h1, rawUrl_roundtrip b2 h2, rawUrl_roundtrip b3 h3]

/-- C2 witness: the amended round-trip at the sample buffers. -/
theorem c2_witness :
    parseOk (encodeJoin hdrBytes pldBytes sigBytes) = true ∧
    decode (encodeJoin hdrBytes pldBytes sigBytes) = .ok (hdrBytes, pldBytes, sigBytes) :=
  ⟨by decide,
    c2_roundtrip_on_parsed hdrBytes pldBytes sigBytes (by decide) (by decide) (by decide)
      (by decide)⟩

/-- C3: validation accepts exactly the flag combinations with at most one
of header, payload, signature set; all others are rejected with the
configuration error, and such a rejection performs no collaborator call and
writes nothing. -/
theorem c3_mutual_exclusion (fl : Flags) (w : World) :
    (modeCount fl > 1 → run fl w = ⟨.error .configErr, [], []⟩) ∧
    (modeCount fl ≤ 1 → (run fl w).result ≠ .error .configErr) := by
  constructor
  · intro h
    unfold run
    rw [if_pos h]
  · intro h
    unfold run
    rw [if_neg (by omega)]
    rcases hl : w.loadResult with e | oc
    · simp [hl]
    · rcases oc with _ | cfg
      · simp [hl]
      · rcases ha : w.armedResult cfg with e | b
        · simp [hl, ha]
        · rcases b with _ | _
          · simp [hl, ha]
          · rcases hc : w.connResult cfg with e | u
            · simp [hl, ha, hc]
            · rcases ht : w.tokensResult with e | ⟨a, r⟩
              · simp [hl, ha, hc, ht]
              · simp only [hl, ha, hc, ht]
                exact runResolved_result_ne_config fl w cfg a r

/-- C3 witness: all three display flags set is rejected by the validation
with no effects and no output. -/
theorem c3_witness :
    modeCount ⟨true, true, true, false⟩ > 1 ∧
    run ⟨true, true, true, false⟩ w0 = ⟨.error .configErr, [], []⟩ :=
  ⟨by decide, (c3_mutual_exclusion ⟨true, true, true, false⟩ w0).1 (by decide)⟩

/-- C4: Counterexample to printing the selected token verbatim in full mode
for every resolved token: with the non-JWT token x resolved, the run fails
at the parse step and writes nothing, because decode runs even in full
mode. -/
theorem c4_counterexample :
    w0.tokensResult = .ok (ascii "x", ascii "y") ∧
    (run ⟨false, false, false, false⟩ w0).result = .error .parseErr ∧
    (run ⟨false, false, false, false⟩ w0).stdout = [] :=
  ⟨rfl, by rfl, by rfl⟩

/-- C4 (amended): in full mode the selected token is written verbatim with
a trailing newline provided it also passes decode, which the code performs
even when no decoded part is displayed. -/
theorem c4_full_mode_prints_token (w : World) (cfg : Cfg) (a r : Bytes)
    (hl : w.loadResult = .ok (some cfg)) (ha : w.armedResult cfg = .ok true)
    (hc : w.connResult cfg = .ok ()) (ht : w.tokensResult = .ok (a, r))
    (hd : (decode a).isOk = true) :
    (run ⟨false, false, false, false⟩ w).stdout = a ++ [10] := by
  rw [run_eq_runResolved (by decide) hl ha hc ht, runResolved_stdout]
  have hsel : select (Flags.mk false false false false).refresh a r = a := rfl
  rw [hsel]
  rcases hdec : decode a with e | ⟨hb, pb, sb⟩
  · rw [hdec] at hd
    exact Bool.noConfusion hd
  · simp only [hdec]
    have hrs : renderStep (Flags.mk false false false false) w.prettyResult a hb pb sb =
        .ok (a ++ [10]) := rfl
    rw [hrs]

/-- C4 witness: the amended statement at the sample token. -/
theorem c4_witness :
    (decode sampleTok).isOk = true ∧
    (run ⟨false, false, false, false⟩ wGood).stdout = sampleTok ++ [10] :=
  ⟨by decide,
    c4_full_mode_prints_token wGood cfg0 sampleTok (ascii "y") rfl rfl rfl rfl (by decide)⟩

/-- C5: Counterexample to rejection of every input with an empty segment:
the sample token with an empty signature segment decodes successfully, with
an empty signature buffer. -/
theorem c5_counterexample :
    splitOnDot emptySigTok = [tokHeaderSeg, tokPayloadSeg, []] ∧
    decode emptySigTok = .ok (hdrBytes, pldBytes, []) :=
  ⟨by decide, by rfl⟩

/-- C5 (amended): decode fails with the parse error whenever the input does
not split into exactly three segments, and it also fails when the header or
the payload segment is empty; an empty signature segment, however, can be
accepted. -/
theorem c5_segment_count (s : Bytes) :
    ((splitOnDot s).length ≠ 3 → decode s = .error .parseErr) ∧
    (∀ p1 p2, splitOnDot s = [[], p1, p2] → (decode s).isOk = false) ∧
    (∀ p0 p2, splitOnDot s = [p0, [], p2] → (decode s).isOk = false) := by
  refine ⟨?_, ?_, ?_⟩
  · intro hlen
    apply decode_parse_fail
    cases hpo : parseOk s
    · rfl
    · exact absurd (parseOk_three hpo) hlen
  · intro p1 p2 hs
    have hok : parseOk s = false := by
      unfold parseOk
      rw [hs]
      rfl
    rw [decode_parse_fail hok]
    rfl
  · intro p0 p2 hs
    have hok : parseOk s = false := by
      unfold parseOk
      rw [hs]
      rcases hd0 : decodeSegment p0 with _ | hb
      · simp [hd0]
      · simp only [hd0]
        rcases hm : unmarshalMap hb with _ | hdr
        · simp [hm]
        · simp only [hm]
          rfl
    rw [decode_parse_fail hok]
    rfl

/-- C5 witness: a two-segment input hits the wrong-count case. -/
theorem c5_witness :
    (splitOnDot (ascii "a.b")).length ≠ 3 ∧ decode (ascii "a.b") = .error .parseErr :=
  ⟨by decide, (c5_segment_count (ascii "a.b")).1 (by decide)⟩

/-- C6: Counterexample to rejection of every segment byte outside the
base64url alphabet: LF (byte 10) is outside the alphabet, yet a signature
segment containing four LF bytes decodes successfully, because Go's base64
decoders skip CR and LF. -/
theorem c6_counterexample :
    b64Index 10 = none ∧
    splitOnDot nlTok = [tokHeaderSeg, tokPayloadSeg, tokSigSeg ++ [10, 10, 10, 10]] ∧
    decode nlTok = .ok (hdrBytes, pldBytes, sigBytes) :=
  ⟨by decide, by decide, by rfl⟩

/-- C6 (amended): a segment containing a padding byte or any other byte
outside the base64url alphabet other than CR/LF always makes decode fail,
but the error names the offending segment only when the failure occurs in
the per-segment re-decode; in particular a header the unverified parse
accepted with padding then fails naming the header. -/
theorem c6_bad_byte_rejected (s p0 p1 p2 : Bytes)
    (hs : splitOnDot s = [p0, p1, p2])
    (hbad : segHasBad p0 = true ∨ segHasBad p1 = true ∨ segHasBad p2 = true) :
    (decode s).isOk = false ∧
    (parseOk s = true → segHasBad p0 = true → decode s = .error .decodeHeaderErr) := by
  constructor
  · rcases hd : decode s with e | ⟨hb, pb, sb⟩
    · rfl
    · exfalso
      obtain ⟨h0, h1, h2⟩ := decode_ok_parts hs hd
      rcases hbad with h | h | h
      · rw [rawUrlDecode_bad h] at h0; exact Option.noConfusion h0
      · rw [rawUrlDecode_bad h] at h1; exact Option.noConfusion h1
      · rw [rawUrlDecode_bad h] at h2; exact Option.noConfusion h2
  · intro hok hb0
    rw [decode_eq_of_split hs hok, rawUrlDecode_bad hb0]

/-- C6 witness: a padded header segment contains the byte 61, the parse
accepts it, and the re-decode then fails naming the header segment. -/
theorem c6_witness :
    splitOnDot padTok = [tokHeaderSeg ++ [61], tokPayloadSeg, tokSigSeg] ∧
    segHasBad (tokHeaderSeg ++ [61]) = true ∧
    parseOk padTok = true ∧
    (decode padTok).isOk = false ∧
    decode padTok = .error .decodeHeaderErr := by
  refine ⟨by decide, by decide, by decide, ?_, ?_⟩
  · exact (c6_bad_byte_rejected padTok (tokHeaderSeg ++ [61]) tokPayloadSeg tokSigSeg
      (by decide) (Or.inl (by decide))).1
  · exact (c6_bad_byte_rejected padTok (tokHeaderSeg ++ [61]) tokPayloadSeg tokSigSeg
      (by decide) (Or.inl (by decide))).2 (by decide) (by decide)

/-- C7: Counterexample to one save per successful retrieval: with the token
pair resolved successfully but the selected token malformed, the run fails
at the parse step and performs no save call at all. -/
theorem c7_counterexample :
    w0.tokensResult = .ok (ascii "x", ascii "y") ∧
    (run ⟨false, false, false, false⟩ w0).effects =
      [.loadCfg, .armedCheck, .connect, .getTokens] :=
  ⟨rfl, by rfl⟩

/-- C7 (amended): when retrieval succeeds and the run reaches the save
stage — it completed, or failed only at saving, so decode and render also
succeeded — exactly one save call occurs, and the saved configuration has
both token fields set to the resolved pair, whichever token was selected
for display. -/
theorem c7_save_after_success (fl : Flags) (w : World) (cfg : Cfg) (a r : Bytes)
    (hl : w.loadResult = .ok (some cfg)) (ha : w.armedResult cfg = .ok true)
    (hc : w.connResult cfg = .ok ()) (ht : w.tokensResult = .ok (a, r))
    (hdone : (run fl w).result = .ok () ∨ (run fl w).result = .error .saveErr) :
    (run fl w).effects =
      [.loadCfg, .armedCheck, .connect, .getTokens,
       .save { cfg with accessToken := a, refreshToken := r }] := by
  by_cases hm : modeCount fl > 1
  · exfalso
    have hcfgrun : run fl w = ⟨.error .configErr, [], []⟩ := by
      unfold run
      rw [if_pos hm]
    rw [hcfgrun] at hdone
    rcases hdone with h | h <;> simp at h
  · rw [run_eq_runResolved hm hl ha hc ht] at hdone ⊢
    unfold runResolved at hdone ⊢
    rcases hdec : decode (select fl.refresh a r) with e | ⟨hb, pb, sb⟩
    · simp only [hdec] at hdone ⊢
      rcases hdone with h | h
      · simp at h
      · have he : e = .saveErr := by simpa using h
        subst he
        rcases decode_err_shape hdec with h2 | h2 | h2 | h2 <;> exact RunErr.noConfusion h2
    · simp only [hdec] at hdone ⊢
      rcases hr : renderStep fl w.prettyResult (select fl.refresh a r) hb pb sb with e | out
      · simp only [hr] at hdone ⊢
        rcases hdone with h | h
        · simp at h
        · have he : e = .saveErr := by simpa using h
          subst he
          rcases renderStep_err_shape hr with h2 | h2 | h2 <;> exact RunErr.noConfusion h2
      · simp only [hr] at hdone ⊢
        rcases hsv : w.saveResult { cfg with accessToken := a, refreshToken := r } with u | u <;>
          simp [hsv]

/-- C7 witness: a fully successful run saves once with both fields set to
the resolved pair. -/
theorem c7_witness :
    (run ⟨false, false, false, false⟩ wGood).result = .ok () ∧
    (run ⟨false, false, false, false⟩ wGood).effects =
      [.loadCfg, .armedCheck, .connect, .getTokens,
       .save { cfg0 with accessToken := sampleTok, refreshToken := ascii "y" }] :=
  ⟨by rfl,
    c7_save_after_success ⟨false, false, false, false⟩ wGood cfg0 sampleTok (ascii "y")
      rfl rfl rfl rfl (Or.inl (by rfl))⟩

/-- C8: token selection is total and pure: with the refresh flag unset it
returns the access token, with it set the refresh token, for all pairs. -/
theorem c8_select_access_refresh (a r : Bytes) :
    select false a r = a ∧ select true a r = r :=
  ⟨rfl, rfl⟩

/-- C9: whenever the unverified parse reports success, its parts list has
exactly three elements, so the later indexing of parts 0, 1 and 2 stays in
bounds. -/
theorem c9_parse_success_three_parts (s : Bytes)
    (h : (parseUnverified s).2 = true) : (parseUnverified s).1.length = 3 :=
  parseOk_three h

/-- C9 witness: the parse succeeds on the sample token with three parts. -/
theorem c9_witness :
    (parseUnverified sampleTok).2 = true ∧ (parseUnverified sampleTok).1.length = 3 :=
  ⟨by decide, c9_parse_success_three_parts sampleTok (by decide)⟩

/-- C10: noninterference of the non-selected token with the display: two
runs with the same flags, the same collaborator behaviour and the same
selected token write identical bytes to standard output, whatever the
non-selected token is; it can differ only in the persisted session. -/
theorem c10_noninterference (fl : Flags) (wa wb : World)
    (h1 : wa.loadResult = wb.loadResult) (h2 : wa.armedResult = wb.armedResult)
    (h3 : wa.connResult = wb.connResult) (h4 : wa.prettyResult = wb.prettyResult)
    (hsel : selectedOf fl wa = selectedOf fl wb) :
    (run fl wa).stdout = (run fl wb).stdout := by
  unfold run
  by_cases hm : modeCount fl > 1
  · rw [if_pos hm, if_pos hm]
  · rw [if_neg hm, if_neg hm, ← h1, ← h2, ← h3]
    rcases hl : wa.loadResult with e | oc
    · simp [hl]
    · rcases oc with _ | cfg
      · simp [hl]
      · rcases ha : wa.armedResult cfg with e | b
        · simp [hl, ha]
        · rcases b with _ | _
          · simp [hl, ha]
          · rcases hc : wa.connResult cfg with e | u
            · simp [hl, ha, hc]
            · rcases hta : wa.tokensResult with e | ⟨a1, r1⟩ <;>
                rcases htb : wb.tokensResult with e2 | ⟨a2, r2⟩
              · simp [hl, ha, hc, hta, htb]
              · exfalso; simp [selectedOf, hta, htb] at hsel
              · exfalso; simp [selectedOf, hta, htb] at hsel
              · have hse : select fl.refresh a1 r1 = select fl.refresh a2 r2 := by
                  simpa [selectedOf, hta, htb] using hsel
                simp only [hl, ha, hc, hta, htb]
                rw [runResolved_stdout, runResolved_stdout, h4, hse]

/-- C10 witness: two worlds differing only in the refresh token produce
identical output when the access token is displayed. -/
theorem c10_witness :
    selectedOf ⟨false, false, false, false⟩ wGood = selectedOf ⟨false, false, false, false⟩ wAlt ∧
    (run ⟨false, false, false, false⟩ wGood).stdout =
      (run ⟨false, false, false, false⟩ wAlt).stdout :=
  ⟨rfl, c10_noninterference ⟨false, false, false, false⟩ wGood wAlt rfl rfl rfl rfl rfl⟩

end OcmToken
